import Mathlib

/-!
Verification of the guacamole-common-js client library.

JavaScript strings are modelled as `List Char`, one entry per UTF-16 code
unit (every string handled here consists of basic-plane characters, for
which one Lean `Char` is exactly one code unit).  JavaScript numbers that
hold indices are modelled as `Int`; the special value NaN, which arises
from `parseInt` on a non-numeric string, is modelled as `Option.none`.
-/

set_option maxHeartbeats 1000000

/-- One decimal digit character, as produced by JavaScript number-to-string
conversion for a nonnegative integer. -/
def digitChar (d : Nat) : Char :=
  match d with
  | 0 => '0' | 1 => '1' | 2 => '2' | 3 => '3' | 4 => '4'
  | 5 => '5' | 6 => '6' | 7 => '7' | 8 => '8' | _ => '9'

/-- Decimal digit list of a natural number (JavaScript number-to-string for
a nonnegative integer), via a structural fuel argument so that the kernel
can evaluate it. -/
def natDigitsAux : Nat → Nat → List Char
  | 0, _ => []
  | fuel + 1, n =>
    if n < 10 then [digitChar n]
    else natDigitsAux fuel (n / 10) ++ [digitChar (n % 10)]

/-- Decimal digit list of a natural number. -/
def natDigits (n : Nat) : List Char := natDigitsAux (n + 1) n

/-- Whether a character is an ASCII decimal digit (as a code unit test). -/
def isDigitCU (c : Char) : Bool := 48 ≤ c.toNat && c.toNat ≤ 57

/-- Whether a character is JavaScript whitespace (the forms relevant to
`parseInt` trimming). -/
def isSpaceCU (c : Char) : Bool :=
  c.toNat = 32 || c.toNat = 9 || c.toNat = 10 || c.toNat = 11 ||
  c.toNat = 12 || c.toNat = 13

/-- Numeric value of an ASCII digit character. -/
def digitVal (c : Char) : Nat := c.toNat - 48

/-- Value of a list of decimal digit characters, most significant first. -/
def natFromDigits (ds : List Char) : Nat :=
  ds.foldl (fun a c => 10 * a + digitVal c) 0

/-- JavaScript `parseInt(s)` (base 10): skip whitespace, optional sign,
then the maximal digit run; `none` models NaN (no digits at all). -/
def jsParseInt (s : List Char) : Option Int :=
  match s.dropWhile isSpaceCU with
  | [] => none
  | c :: rest =>
    if c = '-' then
      let ds := rest.takeWhile isDigitCU
      if ds.isEmpty then none else some (-(natFromDigits ds : Int))
    else if c = '+' then
      let ds := rest.takeWhile isDigitCU
      if ds.isEmpty then none else some ((natFromDigits ds : Int))
    else
      let ds := (c :: rest).takeWhile isDigitCU
      if ds.isEmpty then none else some ((natFromDigits ds : Int))

/-- JavaScript `s.substring(a, b)`: both arguments are clamped to
`[0, s.length]` and swapped if out of order. -/
def jsSubstring (s : List Char) (a b : Int) : List Char :=
  let a' : Nat := (min (max a 0) (s.length : Int)).toNat
  let b' : Nat := (min (max b 0) (s.length : Int)).toNat
  (s.take (max a' b')).drop (min a' b')

/-- JavaScript `s.substring(a)` (one-argument form). -/
def jsSubstringFrom (s : List Char) (a : Int) : List Char := s.drop a.toNat

/-- Position search helper: index (offset by `k`) of the first occurrence
of `c`. -/
def findFrom (c : Char) : List Char → Nat → Option Nat
  | [], _ => none
  | x :: xs, k => if x = c then some k else findFrom c xs (k + 1)

/-- JavaScript `s.indexOf(c, i)`: first occurrence of `c` at or after
position `i` (clamped to `[0, s.length]`), or `-1`. -/
def jsIndexOf (s : List Char) (c : Char) (i : Int) : Int :=
  match findFrom c (s.drop i.toNat) 0 with
  | some k => ((i.toNat + k : Nat) : Int)
  | none => -1

/-- State of `Parser` (part_001, `function Parser()`): the growing buffer,
the buffer of complete elements of the current instruction, the two parse
indices, plus instrumentation recording the `oninstruction` events emitted
and any exception thrown.  `elementEnd = none` models a NaN `element_end`. -/
structure ParserState where
  buffer : List Char
  elementBuffer : List (List Char)
  elementEnd : Option Int
  startIndex : Int
  emitted : List (List Char × List (List Char))
  thrown : Option (List Char)
deriving DecidableEq

/-- The state of a freshly constructed `Parser`. -/
def Parser.initState : ParserState :=
  ⟨[], [], some (-1), 0, [], none⟩

/-- JS comparison `a < b` where `a` may be NaN: NaN compares false. -/
def nanLt (a : Option Int) (b : Int) : Bool :=
  match a with
  | some v => v < b
  | none => false

/-- JS comparison `a >= b` where `a` may be NaN: NaN compares false. -/
def nanGe (a : Option Int) (b : Int) : Bool :=
  match a with
  | some v => b ≤ v
  | none => false

/-- The element-consuming step at the top of the `Parser.receive` loop:
when `element_end >= start_index` (false when `element_end` is NaN), the
window `[start_index, element_end)` is a complete element whose terminator
sits at `element_end`.  `Except.error` models the `throw` on an illegal
terminator, which aborts `receive` immediately. -/
def Parser.elementStep (st : ParserState) : Except ParserState ParserState :=
  match st.elementEnd with
  | none => Except.ok st
  | some e =>
    if st.startIndex ≤ e then
      let element := jsSubstring st.buffer st.startIndex e
      let terminator := jsSubstring st.buffer e (e + 1)
      let eb := st.elementBuffer ++ [element]
      if terminator = [';'] then
        Except.ok { st with
          elementBuffer := [],
          emitted := st.emitted ++ [(eb.headD [], eb.tail)],
          startIndex := e + 1 }
      else if terminator = [','] then
        Except.ok { st with elementBuffer := eb, startIndex := e + 1 }
      else
        Except.error { st with elementBuffer := eb,
                               thrown := some "Illegal terminator.".toList }
    else Except.ok st

/-- The length-search step of the `Parser.receive` loop: find the next `.`
at or after `start_index` and parse `[element_end+1, dot)` as a length.
The source guards the parse with `if (length == NaN)`, which in JavaScript
is always false (NaN is unequal to itself), so no exception is ever raised
here and a NaN length flows into `element_end = start_index + length`
(modelled by `Option.map`).  `none` is returned when no `.` exists yet
(the loop then records `start_index = buffer.length` and breaks). -/
def Parser.lengthStep (st : ParserState) : Option ParserState :=
  let lengthEnd := jsIndexOf st.buffer '.' st.startIndex
  if lengthEnd ≠ -1 then
    let lenStr := jsSubstring st.buffer
      (match st.elementEnd with | some v => v + 1 | none => 0) lengthEnd
    let len := jsParseInt lenStr
    some { st with
      startIndex := lengthEnd + 1,
      elementEnd := len.map (fun n => lengthEnd + 1 + n) }
  else none

/-- The `while (element_end < buffer.length)` loop of `Parser.receive`.
The fuel argument only bounds iteration for termination: within one call
`start_index` strictly increases and stays at most `buffer.length` on
every path that continues the loop, so `buffer.length + 1` units never run
out. -/
def Parser.loopGo : Nat → ParserState → ParserState
  | 0, st => st
  | fuel + 1, st =>
    if nanLt st.elementEnd (st.buffer.length : Int) then
      match Parser.elementStep st with
      | Except.error st' => st'
      | Except.ok st1 =>
        match Parser.lengthStep st1 with
        | some st2 => Parser.loopGo fuel st2
        | none => { st1 with startIndex := (st1.buffer.length : Int) }
    else st

/-- `Parser.receive(packet)` (part_001): truncate the consumed prefix when
`start_index > 4096` and an element is pending, append the packet, and run
the parse loop. -/
def Parser.receive (packet : List Char) (st : ParserState) : ParserState :=
  let st :=
    if 4096 < st.startIndex ∧ nanGe st.elementEnd st.startIndex = true then
      { st with
        buffer := jsSubstringFrom st.buffer st.startIndex,
        elementEnd := st.elementEnd.map (fun v => v - st.startIndex),
        startIndex := 0 }
    else st
  let buf := st.buffer ++ packet
  Parser.loopGo (buf.length + 1) { st with buffer := buf }

/-- `getElement(value)` of `WebSocketTunnel.sendMessage` (and identically of
`HTTPTunnel.sendMessage`): the length/string pair `string.length + "." +
string`, where the JavaScript `length` is the code-unit count. -/
def getElement (value : List Char) : List Char :=
  natDigits value.length ++ '.' :: value

/-- The message string built by `sendMessage`: the first element, each
further element preceded by `,`, and a final `;`. -/
def sendMessageBody (first : List Char) (rest : List (List Char)) : List Char :=
  (rest.foldl (fun m e => m ++ ',' :: getElement e) (getElement first)) ++ [';']

/-- Recursive form of the tail of an encoded message: the terminator of the
previous element followed by the remaining encoded elements. -/
def encTail : List (List Char) → List Char
  | [] => [';']
  | e :: es => ',' :: (getElement e ++ encTail es)

/-- Modelled from the spec: the UTF-8 byte length of a string (sum of the
standard 1 to 4 byte encoded sizes of its characters).  Used only to state
what the spec asserts about the `len` prefix; the source computes the
code-unit count instead. -/
def specUtf8ByteLength (s : List Char) : Nat :=
  (s.map (fun c =>
    if c.toNat < 0x80 then 1
    else if c.toNat < 0x800 then 2
    else if c.toNat < 0x10000 then 3
    else 4)).sum

/-- `Status.Code.SUCCESS`. -/
def successCode : Int := 0x0000

/-- `Status.Code.UPSTREAM_TIMEOUT`. -/
def upstreamTimeoutCode : Int := 0x0202

/-- `Status.Code.RESOURCE_NOT_FOUND`. -/
def resourceNotFoundCode : Int := 0x0204

/-- `Status.isError` (part_001): `code < 0 || code > 0x00FF`. -/
def statusIsError (code : Int) : Bool := code < 0 || 0x00FF < code

/-- `IntegerPool` (part_001): the array of freed integers and the next
fresh integer. -/
structure IntegerPool where
  pool : List Nat
  next_int : Nat
deriving DecidableEq

/-- `IntegerPool.next()`: returns a freed integer if any (shift from the
front), else the next fresh integer. -/
def IntegerPool.next (p : IntegerPool) : Nat × IntegerPool :=
  match p.pool with
  | i :: rest => (i, { p with pool := rest })
  | [] => (p.next_int, { p with next_int := p.next_int + 1 })

/-- `IntegerPool.free(integer)`: push onto the pool. -/
def IntegerPool.free (p : IntegerPool) (i : Nat) : IntegerPool :=
  { p with pool := p.pool ++ [i] }

/-- A callback invocation observable from the Client's stream handlers. -/
inductive ClientEvent where
  | ackEvent (idx : Nat) (reason : List Char) (code : Int)
  | blobEvent (idx : Nat) (data : List Char)
  | endEvent (idx : Nat)
deriving DecidableEq

/-- The Client state touched by the `ack`, `blob` and `end` instruction
handlers: the live input-stream indices (keys of `streams`), the live
output-stream indices (keys of `output_streams`), the `stream_indices`
pool, and the trace of stream callbacks invoked. -/
structure ClientState where
  streams : List Nat
  output_streams : List Nat
  stream_indices : IntegerPool
  events : List ClientEvent
deriving DecidableEq

/-- `instructionHandlers["ack"]` (part_001): if the indexed output stream
is live, invoke its `onack` with a Status carrying the code, then free the
index and delete the stream exactly when `code >= 0x0100`. -/
def Client.handleAck (stream_index : Nat) (reason : List Char) (code : Int)
    (st : ClientState) : ClientState :=
  if st.output_streams.contains stream_index then
    let st1 := { st with
      events := st.events ++ [ClientEvent.ackEvent stream_index reason code] }
    if 0x0100 ≤ code then
      { st1 with
        stream_indices := st1.stream_indices.free stream_index,
        output_streams := st1.output_streams.filter (fun i => i ≠ stream_index) }
    else st1
  else st

/-- `instructionHandlers["blob"]` (part_001): route the data to the live
input stream's `onblob`, if any. -/
def Client.handleBlob (stream_index : Nat) (data : List Char)
    (st : ClientState) : ClientState :=
  if st.streams.contains stream_index then
    { st with events := st.events ++ [ClientEvent.blobEvent stream_index data] }
  else st

/-- `instructionHandlers["end"]` (part_001): if the indexed input stream is
live, signal `onend` and delete it from the table. -/
def Client.handleEnd (stream_index : Nat) (st : ClientState) : ClientState :=
  if st.streams.contains stream_index then
    { st with
      events := st.events ++ [ClientEvent.endEvent stream_index],
      streams := st.streams.filter (fun i => i ≠ stream_index) }
  else st

/-- `Uint8Array.subarray(a, b)` for the nonnegative indices used by
`ArrayBufferWriter.sendData`: the view is clamped to the array bounds. -/
def subarray (bytes : List Nat) (a b : Nat) : List Nat :=
  (bytes.take b).drop a

/-- The splitting loop of `ArrayBufferWriter.sendData` (part_001): for each
`offset` in steps of 8064 below the length, send
`bytes.subarray(offset, offset + 8094)` as one blob.  The upper bound 8094
is exactly what the source says. -/
def ArrayBufferWriter.sendLoop (bytes : List Nat) (offset : Nat) : List (List Nat) :=
  if offset < bytes.length then
    subarray bytes offset (offset + 8094) ::
      ArrayBufferWriter.sendLoop bytes (offset + 8064)
  else []
termination_by bytes.length - offset
decreasing_by omega

/-- `ArrayBufferWriter.sendData(data)`: a single blob when the payload is
at most 8064 bytes, otherwise the splitting loop.  The result is the list
of binary blob payloads handed to `__send_blob` (base64 encoding of each
blob is injective and not modelled). -/
def ArrayBufferWriter.sendData (data : List Nat) : List (List Nat) :=
  if data.length ≤ 8064 then [data]
  else ArrayBufferWriter.sendLoop data 0

/-- An observable event of the Display frame engine: a task handler run, or
a frame callback invocation. -/
inductive Ev where
  | run (taskId : Nat)
  | callback (frameId : Nat)
deriving DecidableEq

/-- A `Task` of the Display (part_001): its identity, whether a handler was
supplied (`execute` runs the handler only if present), and its `blocked`
flag, which lives in `DisplayState.blockedIds`. -/
structure DTask where
  id : Nat
  hasHandler : Bool
deriving DecidableEq

/-- A `Frame` of the Display (part_001): an optional callback and the
ordered tasks sealed into it by `flush`. -/
structure DFrame where
  id : Nat
  hasCallback : Bool
  tasks : List DTask
deriving DecidableEq

/-- The Display frame-engine state: the mutable pending `tasks` list, the
`frames` queue, the set of blocked task ids, the trace of executions and
callbacks, a history of every frame ever flushed (specification aid, never
read by the operations), and fresh-id counters. -/
structure DisplayState where
  pending : List DTask
  frames : List DFrame
  blockedIds : List Nat
  trace : List Ev
  allFrames : List DFrame
  nextTaskId : Nat
  nextFrameId : Nat
deriving DecidableEq

/-- The initial Display state. -/
def Display.initState : DisplayState := ⟨[], [], [], [], [], 0, 0⟩

/-- `Frame.isReady()`: true iff no task of the frame is blocked. -/
def frameReady (blocked : List Nat) (f : DFrame) : Bool :=
  f.tasks.all (fun t => !(blocked.contains t.id))

/-- The events produced by `Frame.flush()`: each task's handler in order
(skipping tasks without handlers), then the callback if present. -/
def frameEvents (f : DFrame) : List Ev :=
  (f.tasks.filterMap (fun t => if t.hasHandler then some (Ev.run t.id) else none))
    ++ (if f.hasCallback then [Ev.callback f.id] else [])

/-- The events of a list of frames, in order. -/
def eventsOf (fs : List DFrame) : List Ev :=
  fs.foldr (fun f acc => frameEvents f ++ acc) []

/-- The loop of `__flush_frames` (part_001): render leading ready frames in
order and return their events together with the remaining queue. -/
def drain (blocked : List Nat) : List DFrame → List Ev × List DFrame
  | [] => ([], [])
  | f :: rest =>
    if frameReady blocked f then
      let p := drain blocked rest
      (frameEvents f ++ p.1, p.2)
    else ([], f :: rest)

/-- `__flush_frames()`: run the drain loop over the frame queue. -/
def Display.flushFrames (st : DisplayState) : DisplayState :=
  let p := drain st.blockedIds st.frames
  { st with trace := st.trace ++ p.1, frames := p.2 }

/-- `scheduleTask(handler, blocked)`: append a new task to the pending
list, blocked as requested. -/
def Display.scheduleTask (hasHandler blocked : Bool) (st : DisplayState) :
    DisplayState :=
  { st with
    pending := st.pending ++ [⟨st.nextTaskId, hasHandler⟩],
    blockedIds :=
      if blocked then st.blockedIds ++ [st.nextTaskId] else st.blockedIds,
    nextTaskId := st.nextTaskId + 1 }

/-- `Display.flush(callback)` (part_001): seal the pending tasks into a new
frame appended to the queue, reset the pending list, and attempt the
drain. -/
def Display.flush (hasCallback : Bool) (st : DisplayState) : DisplayState :=
  Display.flushFrames { st with
    frames := st.frames ++ [⟨st.nextFrameId, hasCallback, st.pending⟩],
    allFrames := st.allFrames ++ [⟨st.nextFrameId, hasCallback, st.pending⟩],
    pending := [],
    nextFrameId := st.nextFrameId + 1 }

/-- `Task.unblock()`: if the task is blocked, clear the flag and re-run the
drain; otherwise do nothing. -/
def Display.unblockTask (tid : Nat) (st : DisplayState) : DisplayState :=
  if st.blockedIds.contains tid then
    Display.flushFrames
      { st with blockedIds := st.blockedIds.filter (fun x => x ≠ tid) }
  else st

/-- An operation on the Display frame engine. -/
inductive DOp where
  | sched (hasHandler blocked : Bool)
  | flushOp (hasCallback : Bool)
  | unblock (tid : Nat)
deriving DecidableEq

/-- Apply one frame-engine operation. -/
def Display.applyOp (st : DisplayState) (op : DOp) : DisplayState :=
  match op with
  | DOp.sched h b => Display.scheduleTask h b st
  | DOp.flushOp cb => Display.flush cb st
  | DOp.unblock tid => Display.unblockTask tid st

/-- Run a sequence of frame-engine operations from the initial state. -/
def Display.runOps (ops : List DOp) : DisplayState :=
  ops.foldl Display.applyOp Display.initState

/-- The frame-engine guarantee: some prefix of the frames flushed so far
has been rendered; the trace is exactly their events, frame by frame in
flush order, each frame contributing its task executions in scheduling
order followed by its callback; the queue holds exactly the unrendered
suffix in order; and the frame at the head of the queue, if any, still
contains a blocked task (the drain never ran past it). -/
def engineInv (st : DisplayState) : Prop :=
  ∃ k, k ≤ st.allFrames.length ∧
    st.frames = st.allFrames.drop k ∧
    st.trace = eventsOf (st.allFrames.take k) ∧
    ∀ f, st.frames.head? = some f → frameReady st.blockedIds f = false

/-- An event fired by the inner tunnel currently attached to a
`ChainedTunnel`. -/
inductive TEvent where
  | stateOpen
  | stateClosed
  | instr
  | errorEv (code : Int)
deriving DecidableEq

/-- A callback forwarded to the consumer of a `ChainedTunnel`. -/
inductive COut where
  | errOut (code : Int)
  | stateOut (s : Nat)
  | instrOut
deriving DecidableEq

/-- The state of a `ChainedTunnel` (src/WebSocketTunnel.js): the tunnels
still to try, the currently attached tunnel, whether the current tunnel
has been committed, the tunnels whose `connect` has been called, and the
callbacks forwarded to the consumer. -/
structure CState where
  remaining : List Nat
  current : Nat
  committed : Bool
  connected : List Nat
  outputs : List COut
deriving DecidableEq

/-- `attach(tunnel)`: make the tunnel current; attaching always ends with
`tunnel.connect(connect_data)`, recorded in `connected`. -/
def Chained.attach (t : Nat) (st : CState) : CState :=
  { st with current := t, connected := st.connected ++ [t] }

/-- `failTunnel(status)`: on `UPSTREAM_TIMEOUT` drop every remaining
tunnel and return null; otherwise shift the next tunnel and attach it if
there is one.  The returned option is `failTunnel`'s return value. -/
def Chained.failTunnel (status : Option Int) (st : CState) : CState × Option Nat :=
  if status = some upstreamTimeoutCode then ({ st with remaining := [] }, none)
  else
    match st.remaining with
    | [] => (st, none)
    | n :: rest => (Chained.attach n { st with remaining := rest }, some n)

/-- Dispatch of one inner-tunnel event through the handlers installed by
`attach` (pre-commit) or by `commit_tunnel` (post-commit, forwarded
verbatim).  Pre-commit: OPEN and the first instruction commit the tunnel;
CLOSED and `onerror` call `failTunnel` (CLOSED passes no status) and
forward to the consumer only when no next tunnel was attached. -/
def Chained.handleTunnelEvent (e : TEvent) (st : CState) : CState :=
  if st.committed then
    match e with
    | TEvent.stateOpen => { st with outputs := st.outputs ++ [COut.stateOut 1] }
    | TEvent.stateClosed => { st with outputs := st.outputs ++ [COut.stateOut 2] }
    | TEvent.instr => { st with outputs := st.outputs ++ [COut.instrOut] }
    | TEvent.errorEv c => { st with outputs := st.outputs ++ [COut.errOut c] }
  else
    match e with
    | TEvent.stateOpen =>
      { st with committed := true, outputs := st.outputs ++ [COut.stateOut 1] }
    | TEvent.stateClosed =>
      let p := Chained.failTunnel none st
      if p.2.isNone then { p.1 with outputs := p.1.outputs ++ [COut.stateOut 2] }
      else p.1
    | TEvent.instr =>
      { st with committed := true, outputs := st.outputs ++ [COut.instrOut] }
    | TEvent.errorEv c =>
      let p := Chained.failTunnel (some c) st
      if p.2.isNone then { p.1 with outputs := p.1.outputs ++ [COut.errOut c] }
      else p.1

/-- Run a sequence of inner-tunnel events through the chained tunnel. -/
def Chained.runEvents (evs : List TEvent) (st : CState) : CState :=
  evs.foldl (fun s e => Chained.handleTunnelEvent e s) st

/-- The `HTTPTunnel` state touched by `close_tunnel` (part_000): the
tunnel state (0 = CONNECTING, 1 = OPEN, 2 = CLOSED), the send flag, and
the traces of `onerror` and `onstatechange` callbacks. -/
structure HState where
  state : Nat
  sendingMessages : Bool
  errOutputs : List Int
  stateOutputs : List Nat
deriving DecidableEq

/-- `close_tunnel(status)` of `HTTPTunnel` (part_000): ignore when already
CLOSED; fire `onerror` for a non-SUCCESS status unless the tunnel is past
CONNECTING and the status is RESOURCE_NOT_FOUND (end-of-stream); then mark
CLOSED, reset the send flag, and fire `onstatechange`. -/
def HTTPTunnel.close_tunnel (code : Int) (st : HState) : HState :=
  if st.state = 2 then st
  else
    let st1 :=
      if code ≠ successCode ∧ (st.state = 0 ∨ code ≠ resourceNotFoundCode) then
        { st with errOutputs := st.errOutputs ++ [code] }
      else st
    { st1 with
      state := 2,
      sendingMessages := false,
      stateOutputs := st1.stateOutputs ++ [2] }

/-- The streaming UTF-8 decoder state of `StringReader` (part_001):
`bytes_remaining` for the current codepoint and the accumulated
`codepoint` bits. -/
structure DecodeState where
  bytes_remaining : Nat
  codepoint : Nat
deriving DecidableEq

/-- JavaScript `String.fromCharCode(n)`: the argument is reduced to a
16-bit code unit. -/
def fromCharCode (n : Nat) : Nat := n % 65536

/-- One byte of `__decode_utf8` (part_001): leading-byte dispatch when no
bytes remain, else continuation handling; ill-formed bytes produce U+FFFD.
The output is the list of code units appended to `text` by this byte. -/
def decodeByte (st : DecodeState) (value : Nat) : List Nat × DecodeState :=
  if st.bytes_remaining = 0 then
    if value ||| 0x7F = 0x7F then ([fromCharCode value], st)
    else if value ||| 0x1F = 0xDF then
      ([], { bytes_remaining := 1, codepoint := value &&& 0x1F })
    else if value ||| 0x0F = 0xEF then
      ([], { bytes_remaining := 2, codepoint := value &&& 0x0F })
    else if value ||| 0x07 = 0xF7 then
      ([], { bytes_remaining := 3, codepoint := value &&& 0x07 })
    else ([0xFFFD], st)
  else if value ||| 0x3F = 0xBF then
    let cp := (st.codepoint <<< 6) ||| (value &&& 0x3F)
    if st.bytes_remaining - 1 = 0 then
      ([fromCharCode cp], { bytes_remaining := 0, codepoint := cp })
    else ([], { bytes_remaining := st.bytes_remaining - 1, codepoint := cp })
  else ([0xFFFD], { st with bytes_remaining := 0 })

/-- `__decode_utf8(buffer)`: fold the decoder over the bytes, returning
the emitted code units and the carried-over state. -/
def decode_utf8 (st : DecodeState) (bytes : List Nat) : List Nat × DecodeState :=
  bytes.foldl (fun acc b =>
    let r := decodeByte acc.2 b
    (acc.1 ++ r.1, r.2)) ([], st)

/-- Modelled from the spec: the standard UTF-8 encoding of a codepoint
(1 to 4 bytes).  Used to state which byte sequences are well-formed; the
source contains only the decoder. -/
def specUtf8Encode (c : Nat) : List Nat :=
  if c < 0x80 then [c]
  else if c < 0x800 then [0xC0 + c / 64, 0x80 + c % 64]
  else if c < 0x10000 then
    [0xE0 + c / 4096, 0x80 + (c / 64) % 64, 0x80 + c % 64]
  else
    [0xF0 + c / 262144, 0x80 + (c / 4096) % 64, 0x80 + (c / 64) % 64,
     0x80 + c % 64]

/-! ### Decimal digits and `parseInt` -/

lemma natDigitsAux_congr : ∀ (f g n : Nat), n < f → n < g →
    natDigitsAux f n = natDigitsAux g n := by
  intro f
  induction f with
  | zero => intro g n h; omega
  | succ f ih =>
    intro g n hf hg
    match g, hg with
    | g + 1, _ =>
      simp only [natDigitsAux]
      by_cases h10 : n < 10
      · simp [h10]
      · simp only [h10, if_false]
        have hrec : n / 10 < n := Nat.div_lt_self (by omega) (by omega)
        rw [ih g (n / 10) (by omega) (by omega)]

lemma natDigits_eq (n : Nat) :
    natDigits n =
      if n < 10 then [digitChar n]
      else natDigits (n / 10) ++ [digitChar (n % 10)] := by
  by_cases h10 : n < 10
  · simp [natDigits, natDigitsAux, h10]
  · have hrec : n / 10 < n := Nat.div_lt_self (by omega) (by omega)
    rw [if_neg h10]
    show natDigitsAux (n + 1) n = _
    conv_lhs => rw [natDigitsAux]
    rw [if_neg h10,
      natDigitsAux_congr n (n / 10 + 1) (n / 10) (by omega) (by omega)]
    rfl

lemma digitChar_isDigit (d : Nat) : isDigitCU (digitChar d) = true := by
  rcases d with _|_|_|_|_|_|_|_|_|d <;> rfl

lemma digitVal_digitChar {d : Nat} (h : d < 10) :
    digitVal (digitChar d) = d := by
  interval_cases d <;> rfl

lemma natDigits_all (n : Nat) : ∀ c ∈ natDigits n, isDigitCU c = true := by
  induction n using Nat.strong_induction_on with
  | _ n ih =>
    rw [natDigits_eq]
    by_cases h10 : n < 10
    · simp only [h10, if_true, List.mem_singleton]
      rintro c rfl
      exact digitChar_isDigit n
    · simp only [h10, if_false, List.mem_append, List.mem_singleton]
      rintro c (hc | rfl)
      · exact ih (n / 10) (Nat.div_lt_self (by omega) (by omega)) c hc
      · exact digitChar_isDigit (n % 10)

lemma natDigits_ne_nil (n : Nat) : natDigits n ≠ [] := by
  rw [natDigits_eq]
  by_cases h10 : n < 10 <;> simp [h10]

lemma natDigits_length_pos (n : Nat) : 0 < (natDigits n).length :=
  List.length_pos.mpr (natDigits_ne_nil n)

lemma isDigitCU_toNat {c : Char} (h : isDigitCU c = true) :
    48 ≤ c.toNat ∧ c.toNat ≤ 57 := by
  simpa [isDigitCU, Bool.and_eq_true, decide_eq_true_eq] using h

lemma digit_not_space {c : Char} (h : isDigitCU c = true) :
    isSpaceCU c = false := by
  have hb := isDigitCU_toNat h
  simp only [isSpaceCU, Bool.or_eq_false_iff, decide_eq_false_iff_not]
  omega

lemma digit_ne_dot {c : Char} (h : isDigitCU c = true) : c ≠ '.' := by
  rintro rfl
  revert h
  decide

lemma digit_ne_minus {c : Char} (h : isDigitCU c = true) : c ≠ '-' := by
  rintro rfl
  revert h
  decide

lemma digit_ne_plus {c : Char} (h : isDigitCU c = true) : c ≠ '+' := by
  rintro rfl
  revert h
  decide

lemma natFromDigits_snoc (a : List Char) (c : Char) :
    natFromDigits (a ++ [c]) = 10 * natFromDigits a + digitVal c := by
  simp [natFromDigits, List.foldl_append]

lemma natFromDigits_natDigits (n : Nat) :
    natFromDigits (natDigits n) = n := by
  induction n using Nat.strong_induction_on with
  | _ n ih =>
    rw [natDigits_eq]
    by_cases h10 : n < 10
    · simp only [h10, if_true]
      simp [natFromDigits, digitVal_digitChar h10]
    · simp only [h10, if_false, natFromDigits_snoc]
      rw [ih (n / 10) (Nat.div_lt_self (by omega) (by omega)),
        digitVal_digitChar (Nat.mod_lt n (by omega))]
      omega

lemma jsParseInt_digits {ds : List Char} (hne : ds ≠ [])
    (hall : ∀ c ∈ ds, isDigitCU c = true) :
    jsParseInt ds = some ((natFromDigits ds : Nat) : Int) := by
  obtain ⟨c, rest, rfl⟩ := List.exists_cons_of_ne_nil hne
  have hc : isDigitCU c = true := hall c (by simp)
  have hdrop : (c :: rest).dropWhile isSpaceCU = c :: rest := by
    rw [List.dropWhile_cons_of_neg]
    simp [digit_not_space hc]
  have htake : (c :: rest).takeWhile isDigitCU = c :: rest :=
    List.takeWhile_eq_self_iff.mpr hall
  simp only [jsParseInt, hdrop, digit_ne_minus hc, if_false,
    digit_ne_plus hc, htake]
  simp

lemma jsParseInt_natDigits (n : Nat) :
    jsParseInt (natDigits n) = some (n : Int) := by
  rw [jsParseInt_digits (natDigits_ne_nil n) (natDigits_all n),
    natFromDigits_natDigits]

/-! ### Substring and index-search facts -/

lemma jsSubstring_extract (A M S : List Char) (a b : Int)
    (ha : a = (A.length : Int)) (hb : b = (A.length : Int) + (M.length : Int)) :
    jsSubstring (A ++ (M ++ S)) a b = M := by
  have hlen : ((A ++ (M ++ S)).length : Int)
      = (A.length : Int) + M.length + S.length := by
    push_cast [List.length_append]
    ring
  have ha' : (min (max a 0) (((A ++ (M ++ S)).length : Nat) : Int)).toNat
      = A.length := by
    rw [ha, hlen]
    omega
  have hb' : (min (max b 0) (((A ++ (M ++ S)).length : Nat) : Int)).toNat
      = A.length + M.length := by
    rw [hb, hlen]
    omega
  simp only [jsSubstring, ha', hb']
  rw [Nat.max_eq_right (by omega), Nat.min_eq_left (by omega)]
  rw [show A ++ (M ++ S) = (A ++ M) ++ S from (List.append_assoc A M S).symm,
    List.take_left' (by simp), List.drop_left' (by rfl)]

lemma jsSubstring_char (A S : List Char) (c : Char) (a b : Int)
    (ha : a = (A.length : Int)) (hb : b = (A.length : Int) + 1) :
    jsSubstring (A ++ c :: S) a b = [c] := by
  have h := jsSubstring_extract A [c] S a b ha (by simpa using hb)
  simpa using h

lemma findFrom_spec (c : Char) (D T : List Char) (h : ∀ x ∈ D, x ≠ c) :
    ∀ k, findFrom c (D ++ c :: T) k = some (k + D.length) := by
  induction D with
  | nil => intro k; simp [findFrom]
  | cons d D ih =>
    intro k
    have hd : d ≠ c := h d (by simp)
    show (if d = c then some k else findFrom c (D ++ c :: T) (k + 1)) = _
    rw [if_neg hd, ih (fun x hx => h x (by simp [hx])) (k + 1)]
    simp only [List.length_cons]
    congr 1
    omega

lemma jsIndexOf_digits (A : List Char) (n : Nat) (T : List Char) (i : Int)
    (hi : i = (A.length : Int)) :
    jsIndexOf (A ++ (natDigits n ++ '.' :: T)) '.' i
      = (A.length : Int) + ((natDigits n).length : Int) := by
  have htn : i.toNat = A.length := by omega
  have hfind : findFrom '.' ((A ++ (natDigits n ++ '.' :: T)).drop i.toNat) 0
      = some (0 + (natDigits n).length) := by
    rw [htn, List.drop_left]
    exact findFrom_spec '.' (natDigits n) T
      (fun x hx => digit_ne_dot (natDigits_all n x hx)) 0
  simp only [jsIndexOf, hfind]
  rw [htn]
  push_cast
  ring

lemma findFrom_none (c : Char) : ∀ (D : List Char), (∀ x ∈ D, x ≠ c) →
    ∀ k, findFrom c D k = none := by
  intro D
  induction D with
  | nil => intro _ k; rfl
  | cons d D ih =>
    intro h k
    simp only [findFrom, h d (by simp), if_false]
    exact ih (fun x hx => h x (by simp [hx])) (k + 1)

lemma jsIndexOf_end (B : List Char) (c : Char) (i : Int)
    (hi : i = (B.length : Int)) :
    jsIndexOf B c i = -1 := by
  have htn : i.toNat = B.length := by omega
  simp [jsIndexOf, htn, List.drop_length, findFrom]

/-! ### Parser single-step characterizations -/

lemma elementStep_semi (P r S : List Char) (eb : List (List Char))
    (em : List (List Char × List (List Char))) :
    Parser.elementStep
        ⟨P ++ (r ++ ';' :: S), eb, some ((P.length : Int) + (r.length : Int)),
          (P.length : Int), em, none⟩
      = Except.ok
        ⟨P ++ (r ++ ';' :: S), [],
          some ((P.length : Int) + (r.length : Int)),
          (P.length : Int) + (r.length : Int) + 1,
          em ++ [((eb ++ [r]).headD [], (eb ++ [r]).tail)], none⟩ := by
  have hel : jsSubstring (P ++ (r ++ ';' :: S)) (P.length : Int)
      ((P.length : Int) + (r.length : Int)) = r :=
    jsSubstring_extract P r (';' :: S) _ _ rfl rfl
  have hterm : jsSubstring (P ++ (r ++ ';' :: S))
      ((P.length : Int) + (r.length : Int))
      ((P.length : Int) + (r.length : Int) + 1) = [';'] := by
    have h := jsSubstring_char (P ++ r) S ';' ((P.length : Int) + (r.length : Int))
      ((P.length : Int) + (r.length : Int) + 1)
      (by push_cast [List.length_append]; ring)
      (by push_cast [List.length_append]; ring)
    rwa [List.append_assoc] at h
  have hle : (P.length : Int) ≤ (P.length : Int) + (r.length : Int) := by
    omega
  simp [Parser.elementStep, hel, hterm, hle]

lemma elementStep_comma (P r S : List Char) (eb : List (List Char))
    (em : List (List Char × List (List Char))) :
    Parser.elementStep
        ⟨P ++ (r ++ ',' :: S), eb, some ((P.length : Int) + (r.length : Int)),
          (P.length : Int), em, none⟩
      = Except.ok
        ⟨P ++ (r ++ ',' :: S), eb ++ [r],
          some ((P.length : Int) + (r.length : Int)),
          (P.length : Int) + (r.length : Int) + 1, em, none⟩ := by
  have hel : jsSubstring (P ++ (r ++ ',' :: S)) (P.length : Int)
      ((P.length : Int) + (r.length : Int)) = r :=
    jsSubstring_extract P r (',' :: S) _ _ rfl rfl
  have hterm : jsSubstring (P ++ (r ++ ',' :: S))
      ((P.length : Int) + (r.length : Int))
      ((P.length : Int) + (r.length : Int) + 1) = [','] := by
    have h := jsSubstring_char (P ++ r) S ',' ((P.length : Int) + (r.length : Int))
      ((P.length : Int) + (r.length : Int) + 1)
      (by push_cast [List.length_append]; ring)
      (by push_cast [List.length_append]; ring)
    rwa [List.append_assoc] at h
  have hle : (P.length : Int) ≤ (P.length : Int) + (r.length : Int) := by
    omega
  have hcs : (([','] : List Char) = [';']) = False := by simp
  simp [Parser.elementStep, hel, hterm, hle, hcs]

lemma lengthStep_spec (Q T : List Char) (n : Nat) (eb : List (List Char))
    (em : List (List Char × List (List Char))) (e s : Int)
    (hs : s = (Q.length : Int)) (he : e + 1 = (Q.length : Int)) :
    Parser.lengthStep ⟨Q ++ (natDigits n ++ '.' :: T), eb, some e, s, em, none⟩
      = some ⟨Q ++ (natDigits n ++ '.' :: T), eb,
          some ((Q.length : Int) + ((natDigits n).length : Int) + 1 + n),
          (Q.length : Int) + ((natDigits n).length : Int) + 1, em, none⟩ := by
  have hidx : jsIndexOf (Q ++ (natDigits n ++ '.' :: T)) '.' s
      = (Q.length : Int) + ((natDigits n).length : Int) :=
    jsIndexOf_digits Q n T s hs
  have hsub : jsSubstring (Q ++ (natDigits n ++ '.' :: T)) (e + 1)
      ((Q.length : Int) + ((natDigits n).length : Int)) = natDigits n :=
    jsSubstring_extract Q (natDigits n) ('.' :: T) (e + 1) _ he rfl
  have hne : ((Q.length : Int) + ((natDigits n).length : Int) ≠ -1) := by
    omega
  simp [Parser.lengthStep, hidx, hsub, jsParseInt_natDigits, hne]

lemma lengthStep_stop (st : ParserState)
    (h : jsIndexOf st.buffer '.' st.startIndex = -1) :
    Parser.lengthStep st = none := by
  simp [Parser.lengthStep, h]

lemma loopGo_step (fuel : Nat) (st st1 st2 : ParserState)
    (hc : nanLt st.elementEnd (st.buffer.length : Int) = true)
    (he : Parser.elementStep st = Except.ok st1)
    (hl : Parser.lengthStep st1 = some st2) :
    Parser.loopGo (fuel + 1) st = Parser.loopGo fuel st2 := by
  simp only [Parser.loopGo, hc, if_true, he, hl]

lemma loopGo_break (fuel : Nat) (st st1 : ParserState)
    (hc : nanLt st.elementEnd (st.buffer.length : Int) = true)
    (he : Parser.elementStep st = Except.ok st1)
    (hl : Parser.lengthStep st1 = none) :
    Parser.loopGo (fuel + 1) st
      = { st1 with startIndex := (st1.buffer.length : Int) } := by
  simp only [Parser.loopGo, hc, if_true, he, hl]

/-! ### The framing round trip -/

lemma foldl_encTail (rest : List (List Char)) :
    ∀ acc : List Char,
      (rest.foldl (fun m e => m ++ ',' :: getElement e) acc) ++ [';']
        = acc ++ encTail rest := by
  induction rest with
  | nil => intro acc; simp [encTail]
  | cons x xs ih =>
    intro acc
    simp only [List.foldl_cons]
    rw [ih (acc ++ ',' :: getElement x)]
    simp [encTail]

lemma sendMessageBody_eq (first : List Char) (rest : List (List Char)) :
    sendMessageBody first rest = getElement first ++ encTail rest := by
  rw [sendMessageBody, foldl_encTail]

lemma getElement_length (x : List Char) :
    (getElement x).length = (natDigits x.length).length + 1 + x.length := by
  simp [getElement]
  omega

lemma encTail_len (es : List (List Char)) :
    es.length + 1 ≤ (encTail es).length := by
  induction es with
  | nil => simp [encTail]
  | cons x xs ih =>
    have h1 : 1 ≤ (natDigits x.length).length := natDigits_length_pos _
    simp only [encTail, List.length_cons, List.length_append,
      getElement_length]
    omega

lemma loop_pending (rest : List (List Char)) :
    ∀ (fuel : Nat) (P r : List Char) (eb : List (List Char)),
      rest.length + 1 ≤ fuel →
      Parser.loopGo fuel
          ⟨P ++ (r ++ encTail rest), eb,
            some ((P.length : Int) + (r.length : Int)),
            (P.length : Int), [], none⟩
        = ⟨P ++ (r ++ encTail rest), [],
            some (((P ++ (r ++ encTail rest)).length : Int) - 1),
            ((P ++ (r ++ encTail rest)).length : Int),
            [((eb ++ r :: rest).headD [], (eb ++ r :: rest).tail)], none⟩ := by
  induction rest with
  | nil =>
    intro fuel P r eb hf
    match fuel, hf with
    | f + 1, _ =>
      have hc : nanLt (some ((P.length : Int) + (r.length : Int)))
          (((P ++ (r ++ encTail [])).length : Nat) : Int) = true := by
        simp only [nanLt, decide_eq_true_eq, encTail]
        push_cast [List.length_append, List.length_cons, List.length_nil]
        omega
      have he := elementStep_semi P r [] eb []
      have hl : Parser.lengthStep
          ⟨P ++ (r ++ ';' :: []), [],
            some ((P.length : Int) + (r.length : Int)),
            (P.length : Int) + (r.length : Int) + 1,
            [] ++ [((eb ++ [r]).headD [], (eb ++ [r]).tail)], none⟩ = none := by
        apply lengthStep_stop
        apply jsIndexOf_end
        push_cast [List.length_append, List.length_cons, List.length_nil]
        ring
      have hres := loopGo_break f _ _ hc he hl
      simp only [encTail]
      rw [hres]
      simp only [ParserState.mk.injEq, Option.some.injEq, List.nil_append,
        true_and, and_true]
      push_cast [List.length_append, List.length_cons, List.length_nil]
      omega
  | cons x xs ih =>
    intro fuel P r eb hf
    match fuel, hf with
    | f + 1, hf =>
      have hf' : xs.length + 1 ≤ f := by
        simp only [List.length_cons] at hf
        omega
      have hbuf : P ++ (r ++ encTail (x :: xs))
          = P ++ (r ++ ',' :: (getElement x ++ encTail xs)) := by
        simp [encTail]
      rw [hbuf]
      have hc : nanLt (some ((P.length : Int) + (r.length : Int)))
          (((P ++ (r ++ ',' :: (getElement x ++ encTail xs))).length : Nat) : Int)
          = true := by
        simp only [nanLt, decide_eq_true_eq]
        push_cast [List.length_append, List.length_cons, List.length_nil]
        omega
      have he := elementStep_comma P r (getElement x ++ encTail xs) eb []
      have hQ : P ++ (r ++ ',' :: (getElement x ++ encTail xs))
          = (P ++ (r ++ [','])) ++ (natDigits x.length ++ '.' :: (x ++ encTail xs)) := by
        simp [getElement]
      have hqlen : ((P.length : Int) + (r.length : Int)) + 1
          = (((P ++ (r ++ [','])).length : Nat) : Int) := by
        push_cast [List.length_append, List.length_cons, List.length_nil]
        ring
      have hl := lengthStep_spec (P ++ (r ++ [','])) (x ++ encTail xs) x.length
        (eb ++ [r]) [] ((P.length : Int) + (r.length : Int))
        ((P.length : Int) + (r.length : Int) + 1) hqlen hqlen
      rw [← hQ] at hl
      rw [loopGo_step f _ _ _ hc he hl]
      have hshape :
          (⟨P ++ (r ++ ',' :: (getElement x ++ encTail xs)), eb ++ [r],
            some ((((P ++ (r ++ [','])).length : Nat) : Int)
              + ((natDigits x.length).length : Int) + 1 + x.length),
            (((P ++ (r ++ [','])).length : Nat) : Int)
              + ((natDigits x.length).length : Int) + 1,
            [], none⟩ : ParserState)
          = ⟨(P ++ (r ++ ',' :: (natDigits x.length ++ ['.'])))
              ++ (x ++ encTail xs), eb ++ [r],
            some ((((P ++ (r ++ ',' :: (natDigits x.length ++ ['.']))).length : Nat) : Int)
              + (x.length : Int)),
            (((P ++ (r ++ ',' :: (natDigits x.length ++ ['.']))).length : Nat) : Int),
            [], none⟩ := by
        simp only [ParserState.mk.injEq, Option.some.injEq, getElement,
          List.append_assoc, List.cons_append, List.nil_append,
          List.singleton_append, true_and, and_true]
        push_cast [List.length_append, List.length_cons, List.length_nil]
        omega
      rw [hshape, ih f (P ++ (r ++ ',' :: (natDigits x.length ++ ['.']))) x
        (eb ++ [r]) hf']
      simp only [ParserState.mk.injEq, Option.some.injEq, getElement,
        List.append_assoc, List.cons_append, List.nil_append,
        List.singleton_append, true_and, and_true]

/-- C1: encoding any opcode and element list with the tunnel's
`sendMessage` framing and feeding the resulting string to `Parser.receive`
emits exactly one instruction, whose opcode and elements are the originals,
element for element, and the parse raises no exception. -/
theorem framing_roundtrip (opcode : List Char) (elements : List (List Char)) :
    (Parser.receive (sendMessageBody opcode elements) Parser.initState).emitted
        = [(opcode, elements)]
      ∧ (Parser.receive (sendMessageBody opcode elements) Parser.initState).thrown
        = none := by
  rw [sendMessageBody_eq]
  have hrec : Parser.receive (getElement opcode ++ encTail elements) Parser.initState
      = Parser.loopGo ((getElement opcode ++ encTail elements).length + 1)
        ⟨getElement opcode ++ encTail elements, [], some (-1), 0, [], none⟩ := by
    simp [Parser.receive, Parser.initState]
  rw [hrec]
  have hc : nanLt (some (-1))
      (((getElement opcode ++ encTail elements).length : Nat) : Int) = true := by
    simp only [nanLt, decide_eq_true_eq]
    omega
  have he : Parser.elementStep
      ⟨getElement opcode ++ encTail elements, [], some (-1), 0, [], none⟩
      = Except.ok ⟨getElement opcode ++ encTail elements, [], some (-1), 0, [], none⟩ := by
    have h0 : ¬((0 : Int) ≤ -1) := by omega
    simp [Parser.elementStep, h0]
  have hQ : getElement opcode ++ encTail elements
      = ([] : List Char)
        ++ (natDigits opcode.length ++ '.' :: (opcode ++ encTail elements)) := by
    simp [getElement]
  have hl := lengthStep_spec ([] : List Char) (opcode ++ encTail elements)
    opcode.length [] [] (-1) 0 (by simp) (by simp)
  rw [← hQ] at hl
  rw [loopGo_step _ _ _ _ hc he hl]
  have hshape :
      (⟨getElement opcode ++ encTail elements, [],
        some (((([] : List Char).length : Nat) : Int)
          + ((natDigits opcode.length).length : Int) + 1 + opcode.length),
        ((([] : List Char).length : Nat) : Int)
          + ((natDigits opcode.length).length : Int) + 1,
        [], none⟩ : ParserState)
      = ⟨(natDigits opcode.length ++ ['.']) ++ (opcode ++ encTail elements), [],
        some ((((natDigits opcode.length ++ ['.']).length : Nat) : Int)
          + (opcode.length : Int)),
        (((natDigits opcode.length ++ ['.']).length : Nat) : Int),
        [], none⟩ := by
    simp only [ParserState.mk.injEq, Option.some.injEq, getElement,
      List.append_assoc, List.cons_append, List.nil_append,
      List.singleton_append, true_and, and_true]
    push_cast [List.length_append, List.length_cons, List.length_nil]
    omega
  rw [hshape]
  have hfuel : elements.length + 1 ≤ (getElement opcode ++ encTail elements).length := by
    have h1 := encTail_len elements
    have h2 := natDigits_length_pos opcode.length
    simp only [List.length_append, getElement_length]
    omega
  rw [loop_pending elements ((getElement opcode ++ encTail elements).length)
    (natDigits opcode.length ++ ['.']) opcode [] hfuel]
  constructor
  · simp
  · rfl

/-- C7: the parser does not fail on a malformed (non-digit) length.  The
source's `if (length == NaN)` guard is always false in JavaScript, so on
the input `x.a;` the parser silently stalls (NaN `element_end`, nothing
emitted, nothing thrown), and on `1x.a;` it silently misparses the length
`1x` as `1` and emits the instruction `(a)` instead of reporting a
protocol error. -/
theorem parser_silent_on_malformed_length :
    (Parser.receive ['x', '.', 'a', ';'] Parser.initState).thrown = none
      ∧ (Parser.receive ['x', '.', 'a', ';'] Parser.initState).emitted = []
      ∧ (Parser.receive ['x', '.', 'a', ';'] Parser.initState).elementEnd = none
      ∧ (Parser.receive ['1', 'x', '.', 'a', ';'] Parser.initState).thrown = none
      ∧ (Parser.receive ['1', 'x', '.', 'a', ';'] Parser.initState).emitted
        = [(['a'], [])] := by
  decide

/-- C2 (counterexample): the `len` prefix written by `getElement` is the
JavaScript string length (code units), not the UTF-8 byte length: the
single character string holding U+4E16 (3 UTF-8 bytes) is framed as
`1.` followed by the character, not `3.` as the claim requires. -/
theorem frame_len_not_utf8_counterexample :
    getElement [Char.ofNat 0x4E16] = ['1', '.', Char.ofNat 0x4E16]
      ∧ specUtf8ByteLength [Char.ofNat 0x4E16] = 3
      ∧ (['1', '.', Char.ofNat 0x4E16] : List Char)
        ≠ ['3', '.', Char.ofNat 0x4E16] := by
  decide

/-- C2 (amended): for every element, the decimal prefix that `getElement`
writes before the first `.` parses back to the element's code-unit count
(the JavaScript string length), not its UTF-8 byte length. -/
theorem frame_len_is_code_unit_count (s : List Char) :
    jsParseInt (jsSubstring (getElement s) 0 (jsIndexOf (getElement s) '.' 0))
      = some (s.length : Int) := by
  have hQ : getElement s
      = ([] : List Char) ++ (natDigits s.length ++ '.' :: s) := by
    simp [getElement]
  rw [hQ, jsIndexOf_digits ([] : List Char) s.length s 0 (by simp),
    jsSubstring_extract ([] : List Char) (natDigits s.length) ('.' :: s) 0 _
      (by simp) rfl]
  exact jsParseInt_natDigits s.length

/-- C5: `sendData` on a payload of 8065 bytes.  The split loop advances by
8064 but slices `subarray(offset, offset + 8094)`, so the first blob
carries all 8065 bytes (more than the documented 8064 maximum) and the
byte at offset 8064 is sent twice: the blobs' binary contents concatenate
to 8066 bytes, not the original payload. -/
theorem sendData_split_overlap_bug :
    ArrayBufferWriter.sendData (List.replicate 8065 (0 : Nat))
        = [List.replicate 8065 0, List.replicate 1 0]
      ∧ (List.replicate 8065 (0 : Nat)).length = 8065
      ∧ ((List.replicate 8065 (0 : Nat)).length ≤ 8064) = False
      ∧ (List.replicate 8065 (0 : Nat) ++ List.replicate 1 0).length = 8066 := by
  have hlen : (List.replicate 8065 (0 : Nat)).length = 8065 :=
    List.length_replicate 8065 0
  have h3 : ArrayBufferWriter.sendLoop (List.replicate 8065 (0 : Nat)) 16128
      = [] := by
    unfold ArrayBufferWriter.sendLoop
    rw [hlen, if_neg (by norm_num)]
  have hsub2 : subarray (List.replicate 8065 (0 : Nat)) 8064 (8064 + 8094)
      = List.replicate 1 0 := by
    rw [subarray, List.take_replicate, List.drop_replicate,
      show min (8064 + 8094) 8065 = 8065 from by norm_num]
  have h2 : ArrayBufferWriter.sendLoop (List.replicate 8065 (0 : Nat)) 8064
      = [List.replicate 1 0] := by
    unfold ArrayBufferWriter.sendLoop
    rw [hlen, if_pos (by norm_num), hsub2,
      show (8064 + 8064) = 16128 from by norm_num, h3]
  have hsub1 : subarray (List.replicate 8065 (0 : Nat)) 0 (0 + 8094)
      = List.replicate 8065 0 := by
    rw [subarray, List.take_replicate, List.drop_replicate,
      show min (0 + 8094) 8065 = 8065 from by norm_num]
  have h1 : ArrayBufferWriter.sendLoop (List.replicate 8065 (0 : Nat)) 0
      = [List.replicate 8065 0, List.replicate 1 0] := by
    unfold ArrayBufferWriter.sendLoop
    rw [hlen, if_pos (by norm_num), hsub1,
      show (0 + 8064) = 8064 from by norm_num, h2]
  refine ⟨?_, hlen, ?_, ?_⟩
  · rw [ArrayBufferWriter.sendData, hlen, if_neg (by norm_num)]
    exact h1
  · rw [hlen]
    norm_num
  · rw [List.length_append, hlen, List.length_replicate]

/-- C6 (counterexample): an `ack` with the negative code `-1` is an error
by `Status.isError`, yet the handler's `code >= 0x0100` test does not
fire: the stream stays in the output table and its index is not freed. -/
theorem ack_negative_error_not_freed :
    statusIsError (-1) = true
      ∧ Client.handleAck 1 ['e'] (-1)
          ⟨[], [1], ⟨[], 2⟩, []⟩
        = ⟨[], [1], ⟨[], 2⟩, [ClientEvent.ackEvent 1 ['e'] (-1)]⟩ := by
  decide

/-- C6 (amended): for a live output stream, the `ack` handler always
invokes `onack` with a Status carrying the code, and frees the index and
drops the stream from the table exactly when the code is at least 0x0100;
a code below 0x0100 (including every negative code) leaves the stream
live and the pool untouched. -/
theorem ack_frees_iff_code_ge_256 (st : ClientState) (idx : Nat)
    (reason : List Char) (code : Int)
    (hlive : st.output_streams.contains idx = true) :
    (Client.handleAck idx reason code st).events
        = st.events ++ [ClientEvent.ackEvent idx reason code]
      ∧ (0x0100 ≤ code →
          (Client.handleAck idx reason code st).output_streams
              = st.output_streams.filter (fun i => i ≠ idx)
            ∧ (Client.handleAck idx reason code st).stream_indices
              = st.stream_indices.free idx)
      ∧ (¬(0x0100 ≤ code) →
          (Client.handleAck idx reason code st).output_streams
              = st.output_streams
            ∧ (Client.handleAck idx reason code st).stream_indices
              = st.stream_indices) := by
  have hmem : idx ∈ st.output_streams := by simpa using hlive
  by_cases hc : (0x0100 : Int) ≤ code <;>
    simp [Client.handleAck, hlive, hmem, hc]

/-- Witness for the amended C6 theorem at a concrete state and codes. -/
theorem ack_frees_iff_code_ge_256_witness :
    ((⟨[], [1], ⟨[], 2⟩, []⟩ : ClientState).output_streams.contains 1 = true)
      ∧ (Client.handleAck 1 ['o'] 256 ⟨[], [1], ⟨[], 2⟩, []⟩).output_streams
        = ([1].filter (fun i => i ≠ 1)) :=
  ⟨by decide,
    ((ack_frees_iff_code_ge_256 ⟨[], [1], ⟨[], 2⟩, []⟩ 1 ['o'] 256
      (by decide)).2.1 (by norm_num)).1⟩

/-- C10: dispatching `blob`, `end` or `ack` for a stream index that is not
live in the corresponding table is a no-op: no callback fires and the
stream tables and index pool are unchanged. -/
theorem dead_stream_instructions_noop (st : ClientState) (idx : Nat)
    (reason data : List Char) (code : Int)
    (hin : st.streams.contains idx = false)
    (hout : st.output_streams.contains idx = false) :
    Client.handleBlob idx data st = st
      ∧ Client.handleEnd idx st = st
      ∧ Client.handleAck idx reason code st = st := by
  have h1 : ¬(idx ∈ st.streams) := by simpa using hin
  have h2 : ¬(idx ∈ st.output_streams) := by simpa using hout
  simp [Client.handleBlob, Client.handleEnd, Client.handleAck, h1, h2]

/-- Witness for the C10 theorem at a concrete state and index. -/
theorem dead_stream_instructions_noop_witness :
    ((⟨[2], [3], ⟨[], 4⟩, []⟩ : ClientState).streams.contains 1 = false)
      ∧ Client.handleBlob 1 ['d'] ⟨[2], [3], ⟨[], 4⟩, []⟩
        = ⟨[2], [3], ⟨[], 4⟩, []⟩ :=
  ⟨by decide,
    (dead_stream_instructions_noop ⟨[2], [3], ⟨[], 4⟩, []⟩ 1 ['r'] ['d'] 0
      (by decide) (by decide)).1⟩

/-- C8: for the HTTP long-poll tunnel, a non-SUCCESS close while
CONNECTING fires `onerror` with that status (RESOURCE_NOT_FOUND included),
while a RESOURCE_NOT_FOUND close after OPEN does not fire `onerror`; in
both cases the state becomes CLOSED and `onstatechange` fires. -/
theorem http_close_error_surfacing (st : HState) (code : Int) :
    (st.state = 0 → code ≠ successCode →
      HTTPTunnel.close_tunnel code st
        = { st with
            state := 2,
            sendingMessages := false,
            errOutputs := st.errOutputs ++ [code],
            stateOutputs := st.stateOutputs ++ [2] })
      ∧ (st.state = 1 →
          HTTPTunnel.close_tunnel resourceNotFoundCode st
            = { st with
                state := 2,
                sendingMessages := false,
                stateOutputs := st.stateOutputs ++ [2] }) := by
  constructor
  · intro h0 hc
    rw [HTTPTunnel.close_tunnel, if_neg (by omega)]
    rw [if_pos ⟨hc, Or.inl h0⟩]
  · intro h1
    rw [HTTPTunnel.close_tunnel, if_neg (by omega)]
    rw [if_neg (by
      rintro ⟨-, h0 | hne⟩
      · omega
      · exact hne rfl)]

/-- Witness for the C8 theorem: both branches at concrete states. -/
theorem http_close_error_surfacing_witness :
    HTTPTunnel.close_tunnel resourceNotFoundCode ⟨0, true, [], []⟩
        = ⟨2, false, [resourceNotFoundCode], [2]⟩
      ∧ HTTPTunnel.close_tunnel resourceNotFoundCode ⟨1, true, [], []⟩
        = ⟨2, false, [], [2]⟩ :=
  ⟨(http_close_error_surfacing ⟨0, true, [], []⟩ resourceNotFoundCode).1
      rfl (by norm_num [successCode, resourceNotFoundCode]),
    (http_close_error_surfacing ⟨1, true, [], []⟩ resourceNotFoundCode).2 rfl⟩

lemma chained_no_remaining_frozen (evs : List TEvent) :
    ∀ st : CState, st.remaining = [] →
      (Chained.runEvents evs st).connected = st.connected
        ∧ (Chained.runEvents evs st).remaining = [] := by
  induction evs with
  | nil => intro st h; exact ⟨rfl, h⟩
  | cons e evs ih =>
    intro st h
    have hstep : (Chained.handleTunnelEvent e st).connected = st.connected
        ∧ (Chained.handleTunnelEvent e st).remaining = [] := by
      by_cases hcom : st.committed
      all_goals cases e
      all_goals simp [Chained.handleTunnelEvent, Chained.failTunnel,
        Chained.attach, h, hcom]
      all_goals split
      all_goals simp [h]
    have hrun : Chained.runEvents (e :: evs) st
        = Chained.runEvents evs (Chained.handleTunnelEvent e st) := by
      simp [Chained.runEvents]
    rw [hrun]
    obtain ⟨h1, h2⟩ := hstep
    obtain ⟨h3, h4⟩ := ih _ h2
    exact ⟨h3.trans h1, h4⟩

/-- C4: before commit, a failure with UPSTREAM_TIMEOUT drops every
remaining tunnel, connects no further tunnel (now or on any later event),
and propagates the error to the consumer, while a failure with any other
status attaches and connects the next tunnel in the list. -/
theorem chained_timeout_stops_failover (st : CState) (evs : List TEvent)
    (c : Int) (n : Nat) (rest : List Nat)
    (hcom : st.committed = false) :
    ((Chained.handleTunnelEvent (TEvent.errorEv upstreamTimeoutCode) st).remaining
        = []
      ∧ (Chained.handleTunnelEvent (TEvent.errorEv upstreamTimeoutCode) st).connected
        = st.connected
      ∧ (Chained.handleTunnelEvent (TEvent.errorEv upstreamTimeoutCode) st).outputs
        = st.outputs ++ [COut.errOut upstreamTimeoutCode]
      ∧ (Chained.runEvents evs
          (Chained.handleTunnelEvent (TEvent.errorEv upstreamTimeoutCode) st)).connected
        = st.connected)
      ∧ (c ≠ upstreamTimeoutCode → st.remaining = n :: rest →
          Chained.handleTunnelEvent (TEvent.errorEv c) st
            = { st with
                remaining := rest,
                current := n,
                connected := st.connected ++ [n] }) := by
  have htime : Chained.handleTunnelEvent (TEvent.errorEv upstreamTimeoutCode) st
      = { st with
          remaining := [],
          outputs := st.outputs ++ [COut.errOut upstreamTimeoutCode] } := by
    simp [Chained.handleTunnelEvent, Chained.failTunnel, hcom]
  refine ⟨⟨by rw [htime], by rw [htime], by rw [htime], ?_⟩, ?_⟩
  · rw [htime]
    exact (chained_no_remaining_frozen evs _ rfl).1
  · intro hc hrem
    simp [Chained.handleTunnelEvent, Chained.failTunnel, Chained.attach,
      hcom, hrem, hc]

/-- Witness for the C4 theorem at a concrete chained-tunnel state. -/
theorem chained_timeout_stops_failover_witness :
    (Chained.runEvents [TEvent.stateClosed, TEvent.errorEv 512]
        (Chained.handleTunnelEvent (TEvent.errorEv upstreamTimeoutCode)
          ⟨[5, 7], 3, false, [3], []⟩)).connected = [3]
      ∧ Chained.handleTunnelEvent (TEvent.errorEv 512)
          ⟨[5, 7], 3, false, [3], []⟩
        = ⟨[7], 5, false, [3, 5], []⟩ := by
  have h := chained_timeout_stops_failover ⟨[5, 7], 3, false, [3], []⟩
    [TEvent.stateClosed, TEvent.errorEv 512] 512 5 [7] rfl
  refine ⟨h.1.2.2.2, ?_⟩
  rw [h.2 (by norm_num [upstreamTimeoutCode]) rfl]
  decide

/-! ### The frame engine invariant -/

lemma eventsOf_nil : eventsOf [] = [] := rfl

lemma eventsOf_cons (f : DFrame) (l : List DFrame) :
    eventsOf (f :: l) = frameEvents f ++ eventsOf l := rfl

lemma eventsOf_append (a b : List DFrame) :
    eventsOf (a ++ b) = eventsOf a ++ eventsOf b := by
  induction a with
  | nil => simp [eventsOf_nil]
  | cons f l ih => simp [eventsOf_cons, ih]

lemma drain_spec (blocked : List Nat) (frames : List DFrame) :
    ∃ j, j ≤ frames.length ∧
      drain blocked frames = (eventsOf (frames.take j), frames.drop j)
      ∧ (∀ f, (frames.drop j).head? = some f →
          frameReady blocked f = false) := by
  induction frames with
  | nil =>
    exact ⟨0, by simp, by simp [drain, eventsOf_nil], by simp⟩
  | cons f rest ih =>
    by_cases hr : frameReady blocked f
    · obtain ⟨j, hj, hd, hh⟩ := ih
      refine ⟨j + 1, by simp only [List.length_cons]; omega, ?_, ?_⟩
      · simp [drain, hr, hd, eventsOf_cons]
      · simpa using hh
    · refine ⟨0, by simp, by simp [drain, hr, eventsOf_nil], ?_⟩
      intro g hg
      simp only [List.drop_zero, List.head?_cons, Option.some.injEq] at hg
      rw [← hg]
      simpa using hr

lemma frameReady_extend (bl : List Nat) (x : Nat) (f : DFrame)
    (h : frameReady bl f = false) : frameReady (bl ++ [x]) f = false := by
  simp only [frameReady, List.all_eq_false] at h ⊢
  obtain ⟨t, ht, hp⟩ := h
  have hp' : t.id ∈ bl := by
    by_contra hmem
    exact hp (by simp [hmem])
  exact ⟨t, ht, by simp [List.mem_append, hp']⟩

lemma flushFrames_inv (st : DisplayState) (k : Nat)
    (hk : k ≤ st.allFrames.length)
    (hf : st.frames = st.allFrames.drop k)
    (ht : st.trace = eventsOf (st.allFrames.take k)) :
    engineInv (Display.flushFrames st) := by
  obtain ⟨j, hj, hd, hh⟩ := drain_spec st.blockedIds st.frames
  have hlen : st.frames.length = st.allFrames.length - k := by
    rw [hf, List.length_drop]
  have hAF : (Display.flushFrames st).allFrames = st.allFrames := rfl
  have hFR : (Display.flushFrames st).frames = st.frames.drop j := by
    show (drain st.blockedIds st.frames).2 = _
    rw [hd]
  have hTR : (Display.flushFrames st).trace
      = st.trace ++ eventsOf (st.frames.take j) := by
    show st.trace ++ (drain st.blockedIds st.frames).1 = _
    rw [hd]
  have hBL : (Display.flushFrames st).blockedIds = st.blockedIds := rfl
  refine ⟨k + j, ?_, ?_, ?_, ?_⟩
  · rw [hAF]
    omega
  · rw [hAF, hFR, hf, List.drop_drop]
  · rw [hAF, hTR, ht, List.take_add, eventsOf_append, hf]
  · intro f hf'
    rw [hBL]
    apply hh
    rw [hFR] at hf'
    exact hf'

lemma scheduleTask_inv (hHandler blocked : Bool) (st : DisplayState)
    (h : engineInv st) :
    engineInv (Display.scheduleTask hHandler blocked st) := by
  obtain ⟨k, hk, hf, ht, hh⟩ := h
  refine ⟨k, hk, hf, ht, ?_⟩
  intro f hf'
  cases blocked with
  | false => exact hh f hf'
  | true => exact frameReady_extend _ _ _ (hh f hf')

lemma displayFlush_inv (cb : Bool) (st : DisplayState)
    (h : engineInv st) : engineInv (Display.flush cb st) := by
  obtain ⟨k, hk, hf, ht, hh⟩ := h
  apply flushFrames_inv _ k
  · show k ≤ (st.allFrames ++ [(⟨st.nextFrameId, cb, st.pending⟩ : DFrame)]).length
    rw [List.length_append]
    omega
  · show st.frames ++ [(⟨st.nextFrameId, cb, st.pending⟩ : DFrame)]
      = (st.allFrames ++ [(⟨st.nextFrameId, cb, st.pending⟩ : DFrame)]).drop k
    rw [List.drop_append_of_le_length hk, hf]
  · show st.trace
      = eventsOf ((st.allFrames ++ [(⟨st.nextFrameId, cb, st.pending⟩ : DFrame)]).take k)
    rw [List.take_append_of_le_length hk, ht]

lemma unblockTask_inv (tid : Nat) (st : DisplayState)
    (h : engineInv st) : engineInv (Display.unblockTask tid st) := by
  obtain ⟨k, hk, hf, ht, hh⟩ := h
  by_cases hb : st.blockedIds.contains tid = true
  · rw [Display.unblockTask, if_pos hb]
    exact flushFrames_inv _ k hk hf ht
  · rw [Display.unblockTask, if_neg hb]
    exact ⟨k, hk, hf, ht, hh⟩

/-- C3: after any sequence of schedule, flush and unblock operations, some
prefix of the frames flushed so far has been rendered; the trace is
exactly their events in flush order, each frame contributing its task
executions in scheduling order followed by its callback; the queue holds
the unrendered frames in order; and the head of the queue, if any, still
contains a blocked task, so no later frame can have overtaken it.
Unblocking re-runs the drain by definition of `Display.unblockTask`. -/
theorem frame_engine_invariant (ops : List DOp) :
    engineInv (Display.runOps ops) := by
  have hinit : engineInv Display.initState := by
    refine ⟨0, by simp [Display.initState], rfl, rfl, ?_⟩
    intro f hf
    simp [Display.initState] at hf
  rw [Display.runOps]
  suffices h : ∀ st : DisplayState, engineInv st →
      engineInv (List.foldl Display.applyOp st ops) from h _ hinit
  induction ops with
  | nil => intro st h; simpa using h
  | cons op rest ih =>
    intro st h
    rw [List.foldl_cons]
    apply ih
    cases op with
    | sched a b => exact scheduleTask_inv a b st h
    | flushOp cb => exact displayFlush_inv cb st h
    | unblock tid => exact unblockTask_inv tid st h

/-! ### UTF-8 decoder facts -/

lemma lorAdd {i b : Nat} (a : Nat) (h : b < 2 ^ i) :
    (2 ^ i * a) ||| b = 2 ^ i * a + b := by
  apply Nat.eq_of_testBit_eq
  intro j
  rw [Nat.testBit_lor, Nat.testBit_mul_pow_two_add a h j,
    Nat.testBit_mul_pow_two]
  by_cases hj : j < i
  · have hij : ¬(i ≤ j) := by omega
    simp [hj, hij]
  · have hij : i ≤ j := by omega
    have hb : b.testBit j = false :=
      Nat.testBit_lt_two_pow
        (lt_of_lt_of_le h (Nat.pow_le_pow_right (by norm_num) hij))
    simp [hj, hij, hb]

lemma lorSmall {a i : Nat} (h : a < 2 ^ i) :
    a ||| (2 ^ i - 1) = 2 ^ i - 1 := by
  apply Nat.eq_of_testBit_eq
  intro j
  rw [Nat.testBit_lor, Nat.testBit_two_pow_sub_one]
  by_cases hj : j < i
  · simp [hj]
  · have hb : a.testBit j = false :=
      Nat.testBit_lt_two_pow
        (lt_of_lt_of_le h (Nat.pow_le_pow_right (by norm_num) (by omega)))
    simp [hj, hb]

lemma contByte_lor {m : Nat} (hm : m < 64) : (128 + m) ||| 0x3F = 0xBF := by
  have hdec : (128 : Nat) + m = 128 ||| m := by
    have := lorAdd (i := 7) 1 (show m < 2 ^ 7 by omega)
    norm_num at this
    omega
  rw [hdec, Nat.lor_assoc,
    show m ||| 0x3F = 0x3F from by
      have := lorSmall (a := m) (i := 6) (by omega)
      simpa using this]
  decide

lemma contByte_and {m : Nat} (hm : m < 64) : (128 + m) &&& 0x3F = m := by
  have h := Nat.and_pow_two_sub_one_eq_mod (128 + m) 6
  norm_num at h
  rw [show (0x3F : Nat) = 63 from rfl] at h ⊢
  omega

lemma shift6_lor (x : Nat) {y : Nat} (hy : y < 64) :
    (x <<< 6) ||| y = 64 * x + y := by
  rw [Nat.shiftLeft_eq, Nat.mul_comm]
  have := lorAdd (i := 6) x (show y < 2 ^ 6 by omega)
  norm_num at this ⊢
  omega

lemma leadByte2_lor7 {d : Nat} (hd : d < 32) :
    (192 + d) ||| 0x7F = 0xFF := by
  have hdec : (192 : Nat) + d = 192 ||| d := by
    have := lorAdd (i := 6) 3 (show d < 2 ^ 6 by omega)
    norm_num at this
    omega
  rw [hdec, Nat.lor_assoc,
    show d ||| 0x7F = 0x7F from by
      have := lorSmall (a := d) (i := 7) (by omega)
      simpa using this]
  decide

lemma leadByte2_lor5 {d : Nat} (hd : d < 32) :
    (192 + d) ||| 0x1F = 0xDF := by
  have hdec : (192 : Nat) + d = 192 ||| d := by
    have := lorAdd (i := 6) 3 (show d < 2 ^ 6 by omega)
    norm_num at this
    omega
  rw [hdec, Nat.lor_assoc,
    show d ||| 0x1F = 0x1F from by
      have := lorSmall (a := d) (i := 5) (by omega)
      simpa using this]
  decide

lemma leadByte2_and {d : Nat} (hd : d < 32) : (192 + d) &&& 0x1F = d := by
  have h := Nat.and_pow_two_sub_one_eq_mod (192 + d) 5
  norm_num at h
  rw [show (0x1F : Nat) = 31 from rfl] at h ⊢
  omega

lemma leadByte3_lor7 {e : Nat} (he : e < 16) :
    (224 + e) ||| 0x7F = 0xFF := by
  have hdec : (224 : Nat) + e = 224 ||| e := by
    have := lorAdd (i := 5) 7 (show e < 2 ^ 5 by omega)
    norm_num at this
    omega
  rw [hdec, Nat.lor_assoc,
    show e ||| 0x7F = 0x7F from by
      have := lorSmall (a := e) (i := 7) (by omega)
      simpa using this]
  decide

lemma leadByte3_lor5 {e : Nat} (he : e < 16) :
    (224 + e) ||| 0x1F = 0xFF := by
  have hdec : (224 : Nat) + e = 224 ||| e := by
    have := lorAdd (i := 5) 7 (show e < 2 ^ 5 by omega)
    norm_num at this
    omega
  rw [hdec, Nat.lor_assoc,
    show e ||| 0x1F = 0x1F from by
      have := lorSmall (a := e) (i := 5) (by omega)
      simpa using this]
  decide

lemma leadByte3_lor4 {e : Nat} (he : e < 16) :
    (224 + e) ||| 0x0F = 0xEF := by
  have hdec : (224 : Nat) + e = 224 ||| e := by
    have := lorAdd (i := 5) 7 (show e < 2 ^ 5 by omega)
    norm_num at this
    omega
  rw [hdec, Nat.lor_assoc,
    show e ||| 0x0F = 0x0F from by
      have := lorSmall (a := e) (i := 4) (by omega)
      simpa using this]
  decide

lemma leadByte3_and {e : Nat} (he : e < 16) : (224 + e) &&& 0x0F = e := by
  have h := Nat.and_pow_two_sub_one_eq_mod (224 + e) 4
  norm_num at h
  rw [show (0x0F : Nat) = 15 from rfl] at h ⊢
  omega

/-- Recursive form of `decode_utf8`, convenient for proofs. -/
def decodeRun : DecodeState → List Nat → List Nat × DecodeState
  | st, [] => ([], st)
  | st, b :: bs =>
    let r := decodeByte st b
    let p := decodeRun r.2 bs
    (r.1 ++ p.1, p.2)

lemma decode_utf8_eq_run (st : DecodeState) (bytes : List Nat) :
    decode_utf8 st bytes = decodeRun st bytes := by
  suffices h : ∀ (bytes : List Nat) (st : DecodeState) (acc : List Nat),
      bytes.foldl (fun acc b =>
        let r := decodeByte acc.2 b
        (acc.1 ++ r.1, r.2)) (acc, st)
        = (acc ++ (decodeRun st bytes).1, (decodeRun st bytes).2) by
    rw [decode_utf8, h bytes st []]
    simp
  intro bytes
  induction bytes with
  | nil =>
    intro st acc
    simp [decodeRun]
  | cons b bs ih =>
    intro st acc
    simp only [List.foldl_cons, decodeRun]
    rw [ih (decodeByte st b).2 (acc ++ (decodeByte st b).1)]
    simp [List.append_assoc]

lemma decodeRun_append (a b : List Nat) :
    ∀ st : DecodeState,
      decodeRun st (a ++ b)
        = ((decodeRun st a).1 ++ (decodeRun (decodeRun st a).2 b).1,
            (decodeRun (decodeRun st a).2 b).2) := by
  induction a with
  | nil => intro st; simp [decodeRun]
  | cons x xs ih =>
    intro st
    simp only [List.cons_append, decodeRun, List.append_eq]
    rw [ih (decodeByte st x).2]
    simp [List.append_assoc]

lemma decodeRun_char (c : Nat) (hc : c < 0x10000) (cp0 : Nat) :
    decodeRun ⟨0, cp0⟩ (specUtf8Encode c)
      = ([c], ⟨0, if c < 0x80 then cp0 else c⟩) := by
  by_cases h1 : c < 0x80
  · simp only [specUtf8Encode, if_pos h1]
    have hlor : c ||| 0x7F = 0x7F := by
      have := lorSmall (a := c) (i := 7) (by omega)
      simpa using this
    have hb : decodeByte ⟨0, cp0⟩ c = ([fromCharCode c], ⟨0, cp0⟩) := by
      simp [decodeByte, hlor]
    simp [decodeRun, hb, fromCharCode,
      Nat.mod_eq_of_lt (show c < 65536 by omega), if_pos h1]
  · by_cases h2 : c < 0x800
    · simp only [specUtf8Encode, if_neg h1, if_pos h2]
      have hd : c / 64 < 32 := by omega
      have hm : c % 64 < 64 := by omega
      have hb1 : decodeByte ⟨0, cp0⟩ (0xC0 + c / 64) = ([], ⟨1, c / 64⟩) := by
        have hno : ¬((0xC0 + c / 64) ||| 0x7F = 0x7F) := by
          rw [show (0xC0 : Nat) = 192 from rfl, leadByte2_lor7 hd]
          norm_num
        have hy : (0xC0 + c / 64) ||| 0x1F = 0xDF := by
          rw [show (0xC0 : Nat) = 192 from rfl, leadByte2_lor5 hd]
        have ha : (0xC0 + c / 64) &&& 0x1F = c / 64 := by
          rw [show (0xC0 : Nat) = 192 from rfl, leadByte2_and hd]
        simp [decodeByte, hno, hy, ha]
      have hb2 : decodeByte ⟨1, c / 64⟩ (0x80 + c % 64)
          = ([fromCharCode c], ⟨0, c⟩) := by
        have hcont : (0x80 + c % 64) ||| 0x3F = 0xBF := by
          rw [show (0x80 : Nat) = 128 from rfl, contByte_lor hm]
        have hacc : ((c / 64) <<< 6) ||| ((0x80 + c % 64) &&& 0x3F) = c := by
          rw [show (0x80 : Nat) = 128 from rfl, contByte_and hm,
            shift6_lor (c / 64) hm]
          omega
        simp [decodeByte, hcont, hacc]
      simp [decodeRun, hb1, hb2, fromCharCode,
        Nat.mod_eq_of_lt (show c < 65536 by omega), if_neg h1]
    · have h3 : c < 0x10000 := hc
      simp only [specUtf8Encode, if_neg h1, if_neg h2, if_pos h3]
      have he : c / 4096 < 16 := by omega
      have hm2 : (c / 64) % 64 < 64 := by omega
      have hm3 : c % 64 < 64 := by omega
      have hb1 : decodeByte ⟨0, cp0⟩ (0xE0 + c / 4096)
          = ([], ⟨2, c / 4096⟩) := by
        have hno1 : ¬((0xE0 + c / 4096) ||| 0x7F = 0x7F) := by
          rw [show (0xE0 : Nat) = 224 from rfl, leadByte3_lor7 he]
          norm_num
        have hno2 : ¬((0xE0 + c / 4096) ||| 0x1F = 0xDF) := by
          rw [show (0xE0 : Nat) = 224 from rfl, leadByte3_lor5 he]
          norm_num
        have hy : (0xE0 + c / 4096) ||| 0x0F = 0xEF := by
          rw [show (0xE0 : Nat) = 224 from rfl, leadByte3_lor4 he]
        have ha : (0xE0 + c / 4096) &&& 0x0F = c / 4096 := by
          rw [show (0xE0 : Nat) = 224 from rfl, leadByte3_and he]
        simp [decodeByte, hno1, hno2, hy, ha]
      have hb2 : decodeByte ⟨2, c / 4096⟩ (0x80 + (c / 64) % 64)
          = ([], ⟨1, 64 * (c / 4096) + (c / 64) % 64⟩) := by
        have hcont : (0x80 + (c / 64) % 64) ||| 0x3F = 0xBF := by
          rw [show (0x80 : Nat) = 128 from rfl, contByte_lor hm2]
        have hacc : ((c / 4096) <<< 6) ||| ((0x80 + (c / 64) % 64) &&& 0x3F)
            = 64 * (c / 4096) + (c / 64) % 64 := by
          rw [show (0x80 : Nat) = 128 from rfl, contByte_and hm2,
            shift6_lor (c / 4096) hm2]
        simp [decodeByte, hcont, hacc]
      have hb3 : decodeByte ⟨1, 64 * (c / 4096) + (c / 64) % 64⟩
          (0x80 + c % 64) = ([fromCharCode c], ⟨0, c⟩) := by
        have hcont : (0x80 + c % 64) ||| 0x3F = 0xBF := by
          rw [show (0x80 : Nat) = 128 from rfl, contByte_lor hm3]
        have hacc : ((64 * (c / 4096) + (c / 64) % 64) <<< 6)
            ||| ((0x80 + c % 64) &&& 0x3F) = c := by
          rw [show (0x80 : Nat) = 128 from rfl, contByte_and hm3,
            shift6_lor _ hm3]
          omega
        simp [decodeByte, hcont, hacc]
      simp [decodeRun, hb1, hb2, hb3, fromCharCode,
        Nat.mod_eq_of_lt (show c < 65536 by omega), if_neg h1]

/-- Modelled from the spec: the byte stream of a sequence of codepoints,
each encoded in standard UTF-8. -/
def specUtf8EncodeAll (cps : List Nat) : List Nat :=
  cps.foldr (fun c acc => specUtf8Encode c ++ acc) []

lemma decodeRun_bmp (cps : List Nat) (h : ∀ c ∈ cps, c < 0x10000) :
    ∀ cp0 : Nat,
      (decodeRun ⟨0, cp0⟩ (specUtf8EncodeAll cps)).1 = cps
        ∧ (decodeRun ⟨0, cp0⟩ (specUtf8EncodeAll cps)).2.bytes_remaining = 0 := by
  induction cps with
  | nil =>
    intro cp0
    exact ⟨rfl, rfl⟩
  | cons c cs ih =>
    intro cp0
    have hc : c < 0x10000 := h c (by simp)
    have hcs : ∀ x ∈ cs, x < 0x10000 := fun x hx => h x (by simp [hx])
    have hto : specUtf8EncodeAll (c :: cs)
        = specUtf8Encode c ++ specUtf8EncodeAll cs := rfl
    rw [hto, decodeRun_append (specUtf8Encode c) (specUtf8EncodeAll cs)
      ⟨0, cp0⟩, decodeRun_char c hc cp0]
    obtain ⟨ih1, ih2⟩ := ih hcs (if c < 0x80 then cp0 else c)
    simp [ih1, ih2]

/-- C9 (amended): the streaming UTF-8 decoder is total and
chunking-invariant (decoding a concatenation equals composing the two
decodes through the carried state), and it decodes any concatenation of
well-formed encodings of codepoints below 0x10000 back to exactly those
codepoints, ending outside any partial sequence.  For codepoints at or
above 0x10000 the emitted value is the codepoint reduced mod 0x10000
(see the counterexample), because the source emits through
`String.fromCharCode`. -/
theorem utf8_decoder_bmp_roundtrip (cps : List Nat) (bs1 bs2 : List Nat)
    (st0 : DecodeState) (h : ∀ c ∈ cps, c < 0x10000) :
    (decode_utf8 ⟨0, 0⟩ (specUtf8EncodeAll cps)).1 = cps
      ∧ (decode_utf8 ⟨0, 0⟩ (specUtf8EncodeAll cps)).2.bytes_remaining = 0
      ∧ decode_utf8 st0 (bs1 ++ bs2)
        = ((decode_utf8 st0 bs1).1
            ++ (decode_utf8 (decode_utf8 st0 bs1).2 bs2).1,
          (decode_utf8 (decode_utf8 st0 bs1).2 bs2).2) := by
  obtain ⟨h1, h2⟩ := decodeRun_bmp cps h 0
  refine ⟨?_, ?_, ?_⟩
  · rw [decode_utf8_eq_run]
    exact h1
  · rw [decode_utf8_eq_run]
    exact h2
  · rw [decode_utf8_eq_run, decode_utf8_eq_run, decode_utf8_eq_run,
      decodeRun_append]

/-- Witness for the amended C9 theorem at concrete codepoints and
chunks. -/
theorem utf8_decoder_bmp_roundtrip_witness :
    (∀ c ∈ [0x24, 0xA2, 0x4E16], c < 0x10000)
      ∧ (decode_utf8 ⟨0, 0⟩ (specUtf8EncodeAll [0x24, 0xA2, 0x4E16])).1
        = [0x24, 0xA2, 0x4E16] :=
  ⟨by decide,
    (utf8_decoder_bmp_roundtrip [0x24, 0xA2, 0x4E16] [0xE4] [0xB8, 0x96]
      ⟨0, 0⟩ (by decide)).1⟩

/-- C9 (counterexample): the well-formed 4-byte encoding of U+1F600
decodes to the single 16-bit value 0xF600, not to the codepoint 0x1F600:
`String.fromCharCode` truncates the accumulated codepoint to 16 bits, so
well-formed astral sequences do not decode to their codepoint. -/
theorem utf8_decoder_astral_counterexample :
    specUtf8Encode 0x1F600 = [0xF0, 0x9F, 0x98, 0x80]
      ∧ (decode_utf8 ⟨0, 0⟩ [0xF0, 0x9F, 0x98, 0x80]).1 = [0xF600]
      ∧ (0xF600 : Nat) ≠ 0x1F600 := by
  decide
